import Mathlib

/-!
Shallow embedding of the decision core of the stock-market-news-intelligence
repository: the Deduplication Engine (src/agents/deduplication_agent.py), the
Stock Impact Mapper (src/agents/stock_impact_agent.py), the Story Aggregator
(src/agents/storage_agent.py) and the Query Engine (src/agents/query_agent.py),
together with the data model of src/models/schemas.py.

Machine floats of the Python source are modelled as rationals; the external
embedding provider is modelled as an opaque similarity parameter
`sim : List ℚ → List ℚ → ℚ`, matching the spec's treatment of the embedding
service as a black box whose scores the core merely consumes.
-/

namespace StockNews

/-- `EntityType` from src/models/schemas.py. -/
inductive EntityType where
  | company | sector | regulator | person | event
deriving DecidableEq, Repr

/-- `ImpactType` from src/models/schemas.py. -/
inductive ImpactType where
  | direct | sector_wide | regulatory | supply_chain
deriving DecidableEq, Repr

/-- `Entity` from src/models/schemas.py (the optional free-text `context`
field is never consulted by the decision core and is omitted). -/
structure Entity where
  name : String
  entity_type : EntityType
  mentions : Nat := 1
deriving DecidableEq, Repr

/-- `StockImpact` from src/models/schemas.py. -/
structure StockImpact where
  symbol : String
  company_name : String
  confidence : ℚ
  impact_type : ImpactType
  reasoning : String := ""
deriving DecidableEq, Repr

/-- `NewsArticle` from src/models/schemas.py (fields `url`, `author` and
`published_date` are never consulted by the decision core and are omitted). -/
structure NewsArticle where
  id : String
  title : String
  content : String
  source : String := ""
  entities : List Entity := []
  stock_impacts : List StockImpact := []
  embedding : Option (List ℚ) := none
  is_duplicate : Bool := false
  duplicate_of : Option String := none
deriving DecidableEq, Repr

/-- `UniqueStory` from src/models/schemas.py. -/
structure UniqueStory where
  id : String
  primary_article : NewsArticle
  duplicate_articles : List NewsArticle := []
  all_entities : List Entity := []
  all_stock_impacts : List StockImpact := []
  confidence_score : ℚ := 1
deriving DecidableEq, Repr

/-! ## Deduplication Engine (src/agents/deduplication_agent.py) -/

/-- `DeduplicationAgent.calculate_similarity`: raises unless both articles
carry an embedding, otherwise delegates to the similarity function. -/
def calculate_similarity (sim : List ℚ → List ℚ → ℚ) (a b : NewsArticle) :
    Except String ℚ :=
  match a.embedding, b.embedding with
  | some va, some vb => .ok (sim va vb)
  | _, _ => .error "Both articles must have embeddings"

/-- Loop state of the scan inside `DeduplicationAgent.find_duplicates`:
the running maximum similarity, the id that last raised it, and the ids
collected above threshold. -/
structure DedupScan where
  maxSim : ℚ
  dupOf : Option String
  similar : List String
deriving DecidableEq, Repr

/-- One iteration of the `for existing in self.processed_articles` loop of
`find_duplicates` (lines 82–91): update the running max on a strict increase,
then append the id when the similarity reaches the threshold. -/
def scanStep (thr : ℚ) (s : DedupScan) (i : String) (q : ℚ) : DedupScan :=
  let s1 := if s.maxSim < q then { s with maxSim := q, dupOf := some i } else s
  if thr ≤ q then { s1 with similar := s1.similar ++ [i] } else s1

/-- The scan loop over precomputed (id, similarity) pairs. -/
def scanList (thr : ℚ) (s : DedupScan) : List (String × ℚ) → DedupScan
  | [] => s
  | p :: rest => scanList thr (scanStep thr s p.1 p.2) rest

/-- `DeduplicationAgent.find_duplicates` (lines 64–95): empty history short
circuit, then the scan; returns (is_duplicate, duplicate_of, max_similarity,
all_similar_ids). -/
def find_duplicates (sim : List ℚ → List ℚ → ℚ) (thr : ℚ)
    (seen : List NewsArticle) (a : NewsArticle) :
    Except String (Bool × Option String × ℚ × List String) :=
  if seen.isEmpty then .ok (false, none, 0, [])
  else do
    let s ← seen.foldlM (fun st e => do
        let q ← calculate_similarity sim a e
        pure (scanStep thr st e.id q)) ⟨0, none, []⟩
    pure (decide (thr ≤ s.maxSim), s.dupOf, s.maxSim, s.similar)

/-- `DeduplicationAgent.process` (lines 97–134): precondition check on the
embedding, then `find_duplicates`, flag update, and unconditional append to
the seen list. The error branch models the raised `ValueError`, under which
the seen list is left untouched. -/
def dedupProcess (sim : List ℚ → List ℚ → ℚ) (thr : ℚ)
    (st : List NewsArticle) (a : NewsArticle) :
    Except String (List NewsArticle × NewsArticle) :=
  if a.embedding = none then
    .error "Article must have embedding before deduplication"
  else do
    let r ← find_duplicates sim thr st a
    let a' := if r.1 then { a with is_duplicate := true, duplicate_of := r.2.1 }
              else { a with is_duplicate := false, duplicate_of := none }
    pure (st ++ [a'], a')

/-- The seen list after a `process` call: unchanged when the call raises. -/
def dedupStateAfter (sim : List ℚ → List ℚ → ℚ) (thr : ℚ)
    (st : List NewsArticle) (a : NewsArticle) : List NewsArticle :=
  match dedupProcess sim thr st a with
  | .ok (st', _) => st'
  | .error _ => st

/-- Sequential batch run of the Deduplication Engine (the per-article loop of
main.py's batch endpoint); an exception aborts the batch. -/
def runDedup (sim : List ℚ → List ℚ → ℚ) (thr : ℚ) :
    List NewsArticle → List NewsArticle → List NewsArticle
  | st, [] => st
  | st, a :: rest =>
    match dedupProcess sim thr st a with
    | .ok (st', _) => runDedup sim thr st' rest
    | .error _ => st

/-! ### Characterisation of the scan loop -/

/-- Running maximum of the similarity values, seeded at `m`. -/
def runMax (m : ℚ) (l : List (String × ℚ)) : ℚ :=
  l.foldl (fun x p => max x p.2) m

theorem runMax_nil (m : ℚ) : runMax m [] = m := rfl

theorem runMax_cons (m : ℚ) (p : String × ℚ) (l : List (String × ℚ)) :
    runMax m (p :: l) = runMax (max m p.2) l := rfl

theorem le_runMax (m : ℚ) (l : List (String × ℚ)) : m ≤ runMax m l := by
  induction l generalizing m with
  | nil => exact le_refl m
  | cons p rest ih =>
    exact le_trans (le_max_left m p.2) (ih (max m p.2))

theorem mem_le_runMax (m : ℚ) (l : List (String × ℚ)) :
    ∀ p ∈ l, p.2 ≤ runMax m l := by
  induction l generalizing m with
  | nil => intro p hp; cases hp
  | cons q rest ih =>
    intro p hp
    rcases List.mem_cons.mp hp with h | h
    · subst h
      exact le_trans (le_max_right m p.2) (le_runMax _ _)
    · exact ih (max m q.2) p h

theorem runMax_eq_of_all_le (m : ℚ) (l : List (String × ℚ))
    (h : ∀ p ∈ l, p.2 ≤ m) : runMax m l = m := by
  induction l generalizing m with
  | nil => rfl
  | cons q rest ih =>
    rw [runMax_cons, max_eq_left (h q (List.mem_cons_self q rest))]
    exact ih m fun p hp => h p (List.mem_cons_of_mem q hp)

theorem scanList_maxSim (thr : ℚ) (s : DedupScan) (l : List (String × ℚ)) :
    (scanList thr s l).maxSim = runMax s.maxSim l := by
  induction l generalizing s with
  | nil => rfl
  | cons p rest ih =>
    rw [scanList, runMax_cons, ih]
    congr 1
    unfold scanStep
    rcases lt_or_ge s.maxSim p.2 with h | h
    · simp only [if_pos h]
      rcases le_or_lt thr p.2 with h2 | h2
      · simp only [if_pos h2]
        exact (max_eq_right (le_of_lt h)).symm
      · simp only [if_neg (not_le.mpr h2)]
        exact (max_eq_right (le_of_lt h)).symm
    · simp only [if_neg (not_lt.mpr h)]
      rcases le_or_lt thr p.2 with h2 | h2
      · simp only [if_pos h2]
        exact (max_eq_left h).symm
      · simp only [if_neg (not_le.mpr h2)]
        exact (max_eq_left h).symm

theorem scanList_similar (thr : ℚ) (s : DedupScan) (l : List (String × ℚ)) :
    (scanList thr s l).similar =
      s.similar ++ (l.filter (fun p => decide (thr ≤ p.2))).map Prod.fst := by
  induction l generalizing s with
  | nil => simp [scanList]
  | cons p rest ih =>
    rw [scanList, ih]
    unfold scanStep
    rcases le_or_lt thr p.2 with h2 | h2
    · rcases lt_or_ge s.maxSim p.2 with h | h
      · simp [if_pos h, if_pos h2, List.filter_cons, h2]
      · simp [if_neg (not_lt.mpr h), if_pos h2, List.filter_cons, h2]
    · rcases lt_or_ge s.maxSim p.2 with h | h
      · simp [if_pos h, if_neg (not_le.mpr h2), List.filter_cons, not_le.mpr h2]
      · simp [if_neg (not_lt.mpr h), if_neg (not_le.mpr h2), List.filter_cons,
          not_le.mpr h2]

theorem scanList_dupOf_of_all_le (thr : ℚ) (s : DedupScan)
    (l : List (String × ℚ)) (h : ∀ p ∈ l, p.2 ≤ s.maxSim) :
    (scanList thr s l).dupOf = s.dupOf := by
  induction l generalizing s with
  | nil => rfl
  | cons p rest ih =>
    rw [scanList]
    have hp : p.2 ≤ s.maxSim := h p (List.mem_cons_self p rest)
    have hstep : (scanStep thr s p.1 p.2).dupOf = s.dupOf ∧
        (scanStep thr s p.1 p.2).maxSim = s.maxSim := by
      unfold scanStep
      simp only [if_neg (not_lt.mpr hp)]
      rcases le_or_lt thr p.2 with h2 | h2
      · simp [if_pos h2]
      · simp [if_neg (not_le.mpr h2)]
    rw [ih _ ?_]
    · exact hstep.1
    · intro q hq
      rw [hstep.2]
      exact h q (List.mem_cons_of_mem p hq)

theorem scanList_dupOf_of_exists (thr : ℚ) (s : DedupScan)
    (l : List (String × ℚ)) (h : ∃ p ∈ l, s.maxSim < p.2) :
    (scanList thr s l).dupOf =
      (l.find? (fun p => p.2 == runMax s.maxSim l)).map Prod.fst := by
  induction l generalizing s with
  | nil => rcases h with ⟨p, hp, _⟩; cases hp
  | cons p rest ih =>
    rw [scanList, runMax_cons]
    have hstep_max : (scanStep thr s p.1 p.2).maxSim = max s.maxSim p.2 := by
      unfold scanStep
      rcases lt_or_ge s.maxSim p.2 with hlt | hge
      · rcases le_or_lt thr p.2 with h2 | h2
        · simp [if_pos hlt, if_pos h2, max_eq_right (le_of_lt hlt)]
        · simp [if_pos hlt, if_neg (not_le.mpr h2), max_eq_right (le_of_lt hlt)]
      · rcases le_or_lt thr p.2 with h2 | h2
        · simp [if_neg (not_lt.mpr hge), if_pos h2, max_eq_left hge]
        · simp [if_neg (not_lt.mpr hge), if_neg (not_le.mpr h2), max_eq_left hge]
    by_cases hall : ∀ q ∈ rest, q.2 ≤ max s.maxSim p.2
    · -- the head is the last strict increase (if any); everything after is ≤
      have hM : runMax (max s.maxSim p.2) rest = max s.maxSim p.2 :=
        runMax_eq_of_all_le _ _ hall
      rw [hM]
      have hdup : (scanList thr (scanStep thr s p.1 p.2) rest).dupOf =
          (scanStep thr s p.1 p.2).dupOf := by
        apply scanList_dupOf_of_all_le
        intro q hq
        rw [hstep_max]
        exact hall q hq
      rw [hdup]
      -- the head must be the strict max: otherwise no element exceeds s.maxSim
      have hplt : s.maxSim < p.2 := by
        by_contra hnot
        push_neg at hnot
        rcases h with ⟨q, hq, hqgt⟩
        rcases List.mem_cons.mp hq with rfl | hq'
        · exact absurd hqgt (not_lt.mpr hnot)
        · have := hall q hq'
          rw [max_eq_left hnot] at this
          exact absurd hqgt (not_lt.mpr this)
      have hmax : max s.maxSim p.2 = p.2 := max_eq_right (le_of_lt hplt)
      have hdup2 : (scanStep thr s p.1 p.2).dupOf = some p.1 := by
        unfold scanStep
        rcases le_or_lt thr p.2 with h2 | h2
        · simp [if_pos hplt, if_pos h2]
        · simp [if_pos hplt, if_neg (not_le.mpr h2)]
      rw [hdup2, hmax, List.find?_cons]
      simp only [beq_self_eq_true]
      rfl
    · -- some later element strictly exceeds; head cannot attain the final max
      push_neg at hall
      rcases hall with ⟨q, hq, hqgt⟩
      have hrec := ih (scanStep thr s p.1 p.2) (by rw [hstep_max]; exact ⟨q, hq, hqgt⟩)
      rw [hrec, hstep_max]
      have hMgt : max s.maxSim p.2 < runMax (max s.maxSim p.2) rest :=
        lt_of_lt_of_le hqgt (mem_le_runMax _ _ q hq)
      have hne : (p.2 == runMax (max s.maxSim p.2) rest) = false := by
        rw [beq_eq_false_iff_ne]
        intro hcontra
        have h1 : runMax (max s.maxSim p.2) rest ≤ max s.maxSim p.2 := by
          rw [← hcontra]
          exact le_max_right _ _
        exact absurd hMgt (not_lt.mpr h1)
      rw [List.find?_cons, hne]

/-- The final maximum is attained by a scanned element whenever some element
strictly exceeds the seed. -/
theorem runMax_attained (m : ℚ) (l : List (String × ℚ))
    (h : ∃ p ∈ l, m < p.2) : ∃ p ∈ l, p.2 = runMax m l := by
  induction l generalizing m with
  | nil => rcases h with ⟨p, hp, _⟩; cases hp
  | cons p rest ih =>
    rw [runMax_cons]
    by_cases hall : ∀ q ∈ rest, q.2 ≤ max m p.2
    · rw [runMax_eq_of_all_le _ _ hall]
      have hplt : m < p.2 := by
        by_contra hnot
        push_neg at hnot
        rcases h with ⟨q, hq, hqgt⟩
        rcases List.mem_cons.mp hq with rfl | hq'
        · exact absurd hqgt (not_lt.mpr hnot)
        · have := hall q hq'
          rw [max_eq_left hnot] at this
          exact absurd hqgt (not_lt.mpr this)
      exact ⟨p, List.mem_cons_self p rest, (max_eq_right (le_of_lt hplt)).symm⟩
    · push_neg at hall
      rcases hall with ⟨q, hq, hqgt⟩
      rcases ih (max m p.2) ⟨q, hq, hqgt⟩ with ⟨r, hr, hrM⟩
      exact ⟨r, List.mem_cons_of_mem p hr, hrM⟩

/-! ### Bridging the monadic engine to the pure scan -/

/-- The (id, similarity) pairs the engine scans, given the new article's
vector `va`. -/
def simPairs (sim : List ℚ → List ℚ → ℚ) (va : List ℚ)
    (seen : List NewsArticle) : List (String × ℚ) :=
  seen.map (fun e => (e.id, sim va (e.embedding.getD [])))

theorem except_bind_ok {α β : Type} (x : α) (f : α → Except String β) :
    (Except.ok x >>= f) = f x := rfl

theorem except_pure_eq_ok {α : Type} (x : α) :
    (pure x : Except String α) = Except.ok x := rfl

theorem foldlM_scan_eq (sim : List ℚ → List ℚ → ℚ) (thr : ℚ)
    (a : NewsArticle) (va : List ℚ) (ha : a.embedding = some va) :
    ∀ (seen : List NewsArticle), (∀ e ∈ seen, e.embedding.isSome) →
    ∀ s : DedupScan,
      (seen.foldlM (fun st e => do
          let q ← calculate_similarity sim a e
          pure (scanStep thr st e.id q)) s : Except String DedupScan)
      = .ok (scanList thr s (simPairs sim va seen)) := by
  intro seen
  induction seen with
  | nil => intro _ s; rfl
  | cons e rest ih =>
    intro hs s
    rcases Option.isSome_iff_exists.mp (hs e (List.mem_cons_self e rest)) with ⟨ve, he⟩
    have hrest : ∀ x ∈ rest, x.embedding.isSome :=
      fun x hx => hs x (List.mem_cons_of_mem e hx)
    have hcalc : calculate_similarity sim a e = .ok (sim va ve) := by
      simp [calculate_similarity, ha, he]
    simp only [List.foldlM_cons, hcalc, except_bind_ok, pure_bind]
    rw [ih hrest]
    simp [simPairs, scanList, he]

theorem find_duplicates_eq_scan (sim : List ℚ → List ℚ → ℚ) (thr : ℚ)
    (seen : List NewsArticle) (a : NewsArticle) (va : List ℚ)
    (ha : a.embedding = some va) (hs : ∀ e ∈ seen, e.embedding.isSome)
    (hne : seen ≠ []) :
    find_duplicates sim thr seen a =
      .ok (decide (thr ≤ (scanList thr ⟨0, none, []⟩ (simPairs sim va seen)).maxSim),
           (scanList thr ⟨0, none, []⟩ (simPairs sim va seen)).dupOf,
           (scanList thr ⟨0, none, []⟩ (simPairs sim va seen)).maxSim,
           (scanList thr ⟨0, none, []⟩ (simPairs sim va seen)).similar) := by
  unfold find_duplicates
  rw [if_neg (by simpa [List.isEmpty_iff] using hne)]
  rw [foldlM_scan_eq sim thr a va ha seen hs ⟨0, none, []⟩]
  rfl

/-! ### Concrete instantiation used by witnesses and counterexamples -/

/-- A concrete similarity function: the dot product. On unit vectors this is
exactly the cosine similarity computed by `EmbeddingGenerator.get_similarity`,
so it is a faithful instantiation of the black-box similarity contract. -/
def dotSim : List ℚ → List ℚ → ℚ
  | a :: as, b :: bs => a * b + dotSim as bs
  | _, _ => 0

def artA : NewsArticle :=
  { id := "a", title := "HDFC Bank announces dividend", content := "body a",
    embedding := some [1, 0] }

def artB : NewsArticle :=
  { id := "b", title := "HDFC Bank declares dividend", content := "body b",
    embedding := some [9/10, 1/10] }

def artC : NewsArticle :=
  { id := "c", title := "Unrelated commodity report", content := "body c",
    embedding := some [0, 1] }

def artD : NewsArticle :=
  { id := "d", title := "HDFC Bank dividend follow-up", content := "body d",
    embedding := some [85/100, 1] }

/-- C1 claim side: "the id of the seen article with the single highest
similarity" — the first scanned pair whose similarity is at least every
scanned similarity. -/
def highestSimilarityId (pairs : List (String × ℚ)) : Option String :=
  (pairs.find? (fun p => pairs.all (fun q => decide (q.2 ≤ p.2)))).map Prod.fst

/-- C1 (amended): with a non-empty history the check returns
`isDuplicate = (maxSimilarity ≥ threshold)`, `allSimilarIds` = exactly the ids
of seen articles whose similarity reaches the threshold (in scan order), and
`maxSimilarity` = the running maximum of the similarities (floored at 0);
`duplicateOf` is the id of the first seen article attaining that maximum
provided some similarity is strictly positive, and `none` when every
similarity is ≤ 0 (in which case `maxSimilarity` = 0). With an empty history
the check returns `(false, none, 0, [])`. -/
theorem C1_find_duplicates_characterisation (sim : List ℚ → List ℚ → ℚ)
    (thr : ℚ) (seen : List NewsArticle) (a : NewsArticle) (va : List ℚ)
    (ha : a.embedding = some va) (hs : ∀ e ∈ seen, e.embedding.isSome) :
    (seen = [] → find_duplicates sim thr seen a = .ok (false, none, 0, [])) ∧
    (seen ≠ [] →
      find_duplicates sim thr seen a =
        .ok (decide (thr ≤ runMax 0 (simPairs sim va seen)),
             (if ∀ p ∈ simPairs sim va seen, p.2 ≤ 0 then none
              else ((simPairs sim va seen).find?
                  (fun p => p.2 == runMax 0 (simPairs sim va seen))).map Prod.fst),
             runMax 0 (simPairs sim va seen),
             ((simPairs sim va seen).filter
                 (fun p => decide (thr ≤ p.2))).map Prod.fst)) := by
  constructor
  · intro h
    subst h
    rfl
  · intro hne
    rw [find_duplicates_eq_scan sim thr seen a va ha hs hne]
    have hmax : (scanList thr ⟨0, none, []⟩ (simPairs sim va seen)).maxSim =
        runMax 0 (simPairs sim va seen) := scanList_maxSim thr _ _
    have hsml : (scanList thr ⟨0, none, []⟩ (simPairs sim va seen)).similar =
        ((simPairs sim va seen).filter (fun p => decide (thr ≤ p.2))).map Prod.fst := by
      rw [scanList_similar]
      rfl
    have hdup : (scanList thr ⟨0, none, []⟩ (simPairs sim va seen)).dupOf =
        (if ∀ p ∈ simPairs sim va seen, p.2 ≤ 0 then none
         else ((simPairs sim va seen).find?
             (fun p => p.2 == runMax 0 (simPairs sim va seen))).map Prod.fst) := by
      by_cases hall : ∀ p ∈ simPairs sim va seen, p.2 ≤ 0
      · rw [if_pos hall]
        exact scanList_dupOf_of_all_le thr _ _ hall
      · rw [if_neg hall]
        push_neg at hall
        exact scanList_dupOf_of_exists thr _ _ hall
    rw [hmax, hsml, hdup]

/-- Witness for C1: a concrete check of `artB` against the single seen
article `artA` (dot-product similarity 9/10 ≥ 0.85). -/
theorem C1_find_duplicates_characterisation_witness :
    find_duplicates dotSim (17/20) [artA] artB =
      .ok (true, some "a", 9/10, ["a"]) := by
  have h := (C1_find_duplicates_characterisation dotSim (17/20) [artA] artB
      [9/10, 1/10] rfl (by decide)).2 (by decide)
  rw [h]
  simp only [Except.ok.injEq, Prod.mk.injEq]
  refine ⟨?_, ?_, ?_, ?_⟩ <;> with_unfolding_all decide

/-- Counterexample to C1 as stated: against the single seen article `artA`
(whose similarity to `artC` is 0, the admissible floor of the similarity
contract) the claim demands `duplicateOf` = the id of the seen article with
the single highest similarity, i.e. `some "a"`, but the engine returns
`none` because `0.0 > max_similarity` never fires. -/
theorem C1_counterexample :
    highestSimilarityId (simPairs dotSim [0, 1] [artA]) = some "a" ∧
    find_duplicates dotSim (17/20) [artA] artC = .ok (false, none, 0, []) := by
  constructor
  · with_unfolding_all decide
  · rw [find_duplicates_eq_scan dotSim (17/20) [artA] artC [0, 1] rfl
      (by decide) (by decide)]
    simp only [Except.ok.injEq, Prod.mk.injEq]
    refine ⟨?_, ?_, ?_, ?_⟩ <;> with_unfolding_all decide

/-! ### Behaviour of `process` and batch runs -/

theorem dedupProcess_ok_spec (sim : List ℚ → List ℚ → ℚ) (thr : ℚ)
    (st : List NewsArticle) (a : NewsArticle) (va : List ℚ)
    (ha : a.embedding = some va) (hs : ∀ e ∈ st, e.embedding.isSome)
    (hthr : 0 < thr) :
    ∃ a', dedupProcess sim thr st a = .ok (st ++ [a'], a') ∧
      a'.embedding = a.embedding ∧
      (a'.is_duplicate = true → ∃ e ∈ st, a'.duplicate_of = some e.id) := by
  unfold dedupProcess
  rw [if_neg (by simp [ha])]
  rcases List.eq_nil_or_concat' st with rfl | hne'
  · refine ⟨{ a with is_duplicate := false, duplicate_of := none }, ?_, rfl, ?_⟩
    · rfl
    · intro hcontra
      simp at hcontra
  · have hne : st ≠ [] := by
      rcases hne' with ⟨l, x, rfl⟩
      simp
    rw [find_duplicates_eq_scan sim thr st a va ha hs hne]
    set M := runMax 0 (simPairs sim va st) with hM
    have hmax : (scanList thr ⟨0, none, []⟩ (simPairs sim va st)).maxSim = M :=
      scanList_maxSim thr _ _
    by_cases hd : thr ≤ M
    · -- duplicate branch: a positive similarity must exist
      have hpos : ∃ p ∈ simPairs sim va st, 0 < p.2 := by
        by_contra hcontra
        push_neg at hcontra
        have : M = 0 := runMax_eq_of_all_le 0 _ hcontra
        rw [this] at hd
        exact absurd hthr (not_lt.mpr hd)
      have hdup : (scanList thr ⟨0, none, []⟩ (simPairs sim va st)).dupOf =
          ((simPairs sim va st).find? (fun p => p.2 == M)).map Prod.fst :=
        scanList_dupOf_of_exists thr _ _ hpos
      rcases runMax_attained 0 _ hpos with ⟨q, hq, hqM⟩
      have hfind : ∃ r, (simPairs sim va st).find? (fun p => p.2 == M) = some r := by
        have : ((simPairs sim va st).find? (fun p => p.2 == M)).isSome := by
          rw [List.find?_isSome]
          exact ⟨q, hq, by simp [hqM]⟩
        exact Option.isSome_iff_exists.mp this
      rcases hfind with ⟨r, hr⟩
      have hrmem : r ∈ simPairs sim va st := List.mem_of_find?_eq_some hr
      rcases List.mem_map.mp hrmem with ⟨e, he, hre⟩
      refine ⟨{ a with is_duplicate := true, duplicate_of := (scanList thr ⟨0, none, []⟩ (simPairs sim va st)).dupOf }, ?_, rfl, ?_⟩
      · show _ = Except.ok _
        rw [except_bind_ok]
        have hb : decide (thr ≤ (scanList thr ⟨0, none, []⟩ (simPairs sim va st)).maxSim)
            = true := by
          rw [hmax]
          exact decide_eq_true hd
        simp only [hb]
        rfl
      · intro _
        refine ⟨e, he, ?_⟩
        rw [hdup, hr]
        simp [← hre]
    · -- unique branch
      refine ⟨{ a with is_duplicate := false, duplicate_of := none }, ?_, rfl, ?_⟩
      · show _ = Except.ok _
        rw [except_bind_ok]
        have hb : decide (thr ≤ (scanList thr ⟨0, none, []⟩ (simPairs sim va st)).maxSim)
            = false := by
          rw [hmax]
          exact decide_eq_false hd
        simp only [hb]
        rfl
      · intro hcontra
        simp at hcontra

theorem runDedup_invariant (sim : List ℚ → List ℚ → ℚ) (thr : ℚ)
    (hthr : 0 < thr) :
    ∀ (batch st : List NewsArticle),
      (∀ e ∈ st, e.embedding.isSome) →
      (∀ a ∈ batch, a.embedding.isSome) →
      (∀ x ∈ st, x.is_duplicate = true → ∃ y ∈ st, x.duplicate_of = some y.id) →
      (∀ x ∈ runDedup sim thr st batch, x.is_duplicate = true →
        ∃ y ∈ runDedup sim thr st batch, x.duplicate_of = some y.id) := by
  intro batch
  induction batch with
  | nil => intro st _ _ hinv; exact hinv
  | cons a rest ih =>
    intro st hst hbatch hinv
    rcases Option.isSome_iff_exists.mp (hbatch a (List.mem_cons_self a rest)) with ⟨va, ha⟩
    rcases dedupProcess_ok_spec sim thr st a va ha hst hthr with ⟨a', hok, hemb', hflag⟩
    show ∀ x ∈ runDedup sim thr st (a :: rest), _
    unfold runDedup
    rw [hok]
    apply ih (st ++ [a'])
    · intro e he
      rcases List.mem_append.mp he with h | h
      · exact hst e h
      · rcases List.mem_singleton.mp h with rfl
        rw [hemb', ha]
        rfl
    · intro x hx
      exact hbatch x (List.mem_cons_of_mem a hx)
    · intro x hx hxdup
      rcases List.mem_append.mp hx with h | h
      · rcases hinv x h hxdup with ⟨y, hy, hyx⟩
        exact ⟨y, List.mem_append_left _ hy, hyx⟩
      · rcases List.mem_singleton.mp h with rfl
        rcases hflag hxdup with ⟨e, he, hde⟩
        exact ⟨e, List.mem_append_left _ he, hde⟩

/-- C2 (amended): over any batch processed one by one by the Deduplication
Engine (positive threshold, all articles embedded), every article whose
duplicate flag ends up true has a `duplicate_of` referencing the id of some
article in the final seen list — but that referenced article may itself be
flagged as a duplicate: chains of duplicates do occur (the engine records
the id of maximum similarity among all previously seen articles, originals
and duplicates alike). -/
theorem C2_duplicate_references_processed (sim : List ℚ → List ℚ → ℚ)
    (thr : ℚ) (batch : List NewsArticle) (hthr : 0 < thr)
    (hemb : ∀ a ∈ batch, a.embedding.isSome) :
    ∀ x ∈ runDedup sim thr [] batch, x.is_duplicate = true →
      ∃ y ∈ runDedup sim thr [] batch, x.duplicate_of = some y.id :=
  runDedup_invariant sim thr hthr batch []
    (by intro e he; cases he) hemb (by intro x hx; cases hx)

/-- Witness for C2 (amended): in the concrete run `[artA, artB]`, the
processed `artB` is flagged and points at a processed article's id. -/
theorem C2_duplicate_references_processed_witness :
    ∃ y ∈ runDedup dotSim (17/20) [] [artA, artB],
      ({ artB with is_duplicate := true, duplicate_of := some "a" }
        : NewsArticle).duplicate_of = some y.id := by
  apply C2_duplicate_references_processed dotSim (17/20) [artA, artB]
    (by norm_num) (by decide)
  · with_unfolding_all decide
  · rfl

/-- Counterexample to C2 as stated: in the run `[artA, artB, artD]` the
third article ends duplicate with `duplicate_of = "b"`, and the article
with id "b" has its own duplicate flag set — a duplicate points at another
duplicate. -/
theorem C2_counterexample :
    (runDedup dotSim (17/20) [] [artA, artB, artD]).map
        (fun x => (x.id, x.is_duplicate, x.duplicate_of)) =
      [("a", false, none), ("b", true, some "a"), ("d", true, some "b")] ∧
    ∃ x ∈ runDedup dotSim (17/20) [] [artA, artB, artD],
      x.is_duplicate = true ∧
      ∃ y ∈ runDedup dotSim (17/20) [] [artA, artB, artD],
        x.duplicate_of = some y.id ∧ y.is_duplicate = true := by
  constructor
  · with_unfolding_all decide
  · with_unfolding_all decide

/-- C8: `process` raises exactly when the checked article lacks an embedding
(its seen articles all embedded), and the raise leaves the seen list
untouched. -/
theorem C8_process_error_iff_no_embedding (sim : List ℚ → List ℚ → ℚ)
    (thr : ℚ) (st : List NewsArticle) (a : NewsArticle)
    (hs : ∀ e ∈ st, e.embedding.isSome) :
    ((∃ msg, dedupProcess sim thr st a = .error msg) ↔ a.embedding = none) ∧
    (a.embedding = none → dedupStateAfter sim thr st a = st) := by
  constructor
  · constructor
    · intro ⟨msg, hmsg⟩
      by_contra hcontra
      rcases Option.ne_none_iff_exists'.mp hcontra with ⟨va, ha⟩
      rcases List.eq_nil_or_concat' st with rfl | hne'
      · unfold dedupProcess at hmsg
        rw [if_neg (by simp [ha])] at hmsg
        simp only [find_duplicates, List.isEmpty_nil, if_pos] at hmsg
        rw [except_bind_ok] at hmsg
        cases hmsg
      · have hne : st ≠ [] := by
          rcases hne' with ⟨l, x, rfl⟩
          simp
        unfold dedupProcess at hmsg
        rw [if_neg (by simp [ha]),
          find_duplicates_eq_scan sim thr st a va ha hs hne,
          except_bind_ok] at hmsg
        revert hmsg
        split
        · intro hmsg; cases hmsg
        · intro hmsg; cases hmsg
    · intro ha
      refine ⟨"Article must have embedding before deduplication", ?_⟩
      unfold dedupProcess
      rw [if_pos ha]
  · intro ha
    unfold dedupStateAfter dedupProcess
    rw [if_pos ha]

def artN : NewsArticle :=
  { id := "n", title := "No vector yet", content := "body n",
    embedding := none }

/-- Witness for C8: the embedding-less `artN` makes `process` raise against
the seen list `[artA]`, and the seen list is unchanged. -/
theorem C8_process_error_iff_no_embedding_witness :
    (∃ msg, dedupProcess dotSim (17/20) [artA] artN = .error msg) ∧
    dedupStateAfter dotSim (17/20) [artA] artN = [artA] := by
  have h := C8_process_error_iff_no_embedding dotSim (17/20) [artA] artN
    (by decide)
  exact ⟨h.1.mpr rfl, h.2 rfl⟩

/-! ## Merging stock impacts by symbol
(src/agents/stock_impact_agent.py lines 302–312 and
src/agents/storage_agent.py lines 108–114 — identical logic: an
insertion-ordered dict keyed by symbol, replacing an entry only on strictly
higher confidence) -/

/-- One step of the `for impact in stock_impacts` merge loop. -/
def insertImpact (acc : List StockImpact) (i : StockImpact) : List StockImpact :=
  if acc.any (fun j => j.symbol == i.symbol) then
    acc.map (fun j => if j.symbol == i.symbol && decide (j.confidence < i.confidence)
      then i else j)
  else acc ++ [i]

/-- `unique_impacts` as a list in dict insertion order. -/
def mergeImpacts (l : List StockImpact) : List StockImpact :=
  l.foldl insertImpact []

/-- First-occurrence deduplication of a list of symbols, used to phrase
"exactly one impact per distinct symbol, in first-encounter order". -/
def firstOccs (l : List String) : List String :=
  l.foldl (fun acc s => if s ∈ acc then acc else acc ++ [s]) []

theorem mem_firstOccs_aux (L : List String) :
    ∀ acc s, s ∈ L.foldl (fun acc s => if s ∈ acc then acc else acc ++ [s]) acc ↔
      s ∈ acc ∨ s ∈ L := by
  induction L with
  | nil => intro acc s; simp [List.foldl_nil]
  | cons t rest ih =>
    intro acc s
    rw [List.foldl_cons]
    by_cases ht : t ∈ acc
    · rw [if_pos ht, ih]
      constructor
      · rintro (h | h)
        · exact Or.inl h
        · exact Or.inr (List.mem_cons_of_mem t h)
      · rintro (h | h)
        · exact Or.inl h
        · rcases List.mem_cons.mp h with rfl | h
          · exact Or.inl ht
          · exact Or.inr h
    · rw [if_neg ht, ih]
      constructor
      · rintro (h | h)
        · rcases List.mem_append.mp h with h | h
          · exact Or.inl h
          · rcases List.mem_singleton.mp h with rfl
            exact Or.inr (List.mem_cons_self s rest)
        · exact Or.inr (List.mem_cons_of_mem t h)
      · rintro (h | h)
        · exact Or.inl (List.mem_append_left _ h)
        · rcases List.mem_cons.mp h with rfl | h
          · exact Or.inl (List.mem_append_right _ (List.mem_singleton_self s))
          · exact Or.inr h

theorem mem_firstOccs (L : List String) (s : String) :
    s ∈ firstOccs L ↔ s ∈ L := by
  rw [firstOccs, mem_firstOccs_aux]
  simp

theorem firstOccs_concat (L : List String) (s : String) :
    firstOccs (L ++ [s]) =
      if s ∈ firstOccs L then firstOccs L else firstOccs L ++ [s] := by
  unfold firstOccs
  rw [List.foldl_append]
  rfl

theorem mergeImpacts_concat (l : List StockImpact) (i : StockImpact) :
    mergeImpacts (l ++ [i]) = insertImpact (mergeImpacts l) i := by
  unfold mergeImpacts
  rw [List.foldl_append]
  rfl

/-- C3: merging stock impacts by symbol produces exactly one impact per
distinct symbol, in first-encounter order; each produced impact is an input
impact whose confidence is maximal among the input impacts sharing its
symbol, and it strictly beats every earlier same-symbol input impact — so on
exact confidence ties the impact encountered first is kept. -/
theorem mergeImpacts_characterisation (l : List StockImpact) :
    (mergeImpacts l).map (fun j => j.symbol) = firstOccs (l.map (fun j => j.symbol)) ∧
    ∀ j ∈ mergeImpacts l, ∃ l₁ l₂, l = l₁ ++ j :: l₂ ∧
      (∀ k ∈ l, k.symbol = j.symbol → k.confidence ≤ j.confidence) ∧
      (∀ k ∈ l₁, k.symbol = j.symbol → k.confidence < j.confidence) := by
  induction l using List.reverseRecOn with
  | nil => exact ⟨rfl, by intro j hj; cases hj⟩
  | append_singleton l i ih =>
    rcases ih with ⟨ih1, ih2⟩
    rw [mergeImpacts_concat, List.map_append]
    simp only [List.map_cons, List.map_nil]
    rw [firstOccs_concat]
    unfold insertImpact
    by_cases hpresent : (mergeImpacts l).any (fun j => j.symbol == i.symbol) = true
    · -- symbol already present: replacement semantics
      have hmem : i.symbol ∈ firstOccs (l.map (fun j => j.symbol)) := by
        rw [← ih1]
        rcases List.any_eq_true.mp hpresent with ⟨j, hj, hji⟩
        exact List.mem_map.mpr ⟨j, hj, eq_of_beq hji⟩
      rw [if_pos hpresent, if_pos hmem]
      constructor
      · -- symbols are unchanged by the replacement map
        rw [List.map_map, ← ih1]
        congr 1
        funext j
        by_cases hc : (j.symbol == i.symbol && decide (j.confidence < i.confidence)) = true
        · simp only [Function.comp_apply, hc, if_pos]
          exact (eq_of_beq (Bool.and_elim_left hc)).symm
        · simp only [Function.comp_apply, hc]
          rfl
      · intro j' hj'
        rcases List.mem_map.mp hj' with ⟨j, hj, hjj'⟩
        by_cases hsym : j.symbol = i.symbol
        · by_cases hconf : j.confidence < i.confidence
          · -- replaced by the new impact i
            have : j' = i := by
              rw [← hjj']
              simp [hsym, hconf]
            subst this
            refine ⟨l, [], by simp, ?_, ?_⟩
            · intro k hk hks
              rcases List.mem_append.mp hk with hk | hk
              · rcases ih2 j hj with ⟨_, _, _, hmaxj, _⟩
                exact le_of_lt (lt_of_le_of_lt (hmaxj k hk (by rw [hks, hsym])) hconf)
              · rcases List.mem_singleton.mp hk with rfl
                exact le_refl _
            · intro k hk hks
              rcases ih2 j hj with ⟨_, _, _, hmaxj, _⟩
              exact lt_of_le_of_lt (hmaxj k hk (by rw [hks, hsym])) hconf
          · -- kept: the incoming impact does not strictly beat it
            have : j' = j := by
              rw [← hjj']
              simp [hconf]
            subst this
            rcases ih2 j' hj with ⟨l₁, l₂, hdec, hmaxj, hstrict⟩
            refine ⟨l₁, l₂ ++ [i], by rw [hdec]; simp, ?_, hstrict⟩
            intro k hk hks
            rcases List.mem_append.mp hk with hk | hk
            · exact hmaxj k hk hks
            · rcases List.mem_singleton.mp hk with rfl
              exact le_of_not_lt hconf
        · -- different symbol: untouched
          have : j' = j := by
            rw [← hjj']
            have hb : (j.symbol == i.symbol) = false := beq_eq_false_iff_ne.mpr hsym
            simp [hb]
          subst this
          rcases ih2 j' hj with ⟨l₁, l₂, hdec, hmaxj, hstrict⟩
          refine ⟨l₁, l₂ ++ [i], by rw [hdec]; simp, ?_, hstrict⟩
          intro k hk hks
          rcases List.mem_append.mp hk with hk | hk
          · exact hmaxj k hk hks
          · rcases List.mem_singleton.mp hk with rfl
            exact absurd hks.symm hsym
    · -- new symbol: appended at the end
      have hnotmem : i.symbol ∉ firstOccs (l.map (fun j => j.symbol)) := by
        rw [← ih1]
        intro hc
        rcases List.mem_map.mp hc with ⟨j, hj, hji⟩
        exact hpresent (List.any_eq_true.mpr ⟨j, hj, beq_iff_eq.mpr hji⟩)
      rw [if_neg hpresent, if_neg hnotmem]
      have hfresh : ∀ k ∈ l, k.symbol ≠ i.symbol := by
        intro k hk hc
        apply hnotmem
        rw [mem_firstOccs]
        exact List.mem_map.mpr ⟨k, hk, hc⟩
      constructor
      · rw [List.map_append, ih1]
        rfl
      · intro j' hj'
        rcases List.mem_append.mp hj' with hj' | hj'
        · rcases ih2 j' hj' with ⟨l₁, l₂, hdec, hmaxj, hstrict⟩
          refine ⟨l₁, l₂ ++ [i], by rw [hdec]; simp, ?_, hstrict⟩
          intro k hk hks
          rcases List.mem_append.mp hk with hk | hk
          · exact hmaxj k hk hks
          · rcases List.mem_singleton.mp hk with rfl
            have : j' ∈ l := by
              rw [hdec]
              exact List.mem_append_right _ (List.mem_cons_self _ _)
            exact absurd (hks.symm) (hfresh j' this)
        · rcases List.mem_singleton.mp hj' with rfl
          refine ⟨l, [], by simp, ?_, ?_⟩
          · intro k hk hks
            rcases List.mem_append.mp hk with hk | hk
            · exact absurd hks (hfresh k hk)
            · rcases List.mem_singleton.mp hk with rfl
              exact le_refl _
          · intro k hk hks
            exact absurd hks (hfresh k hk)

/-! ## Stock Impact Mapper (src/agents/stock_impact_agent.py) -/

/-- Python `str.lower()` on the ASCII names used throughout. -/
def lowerStr (s : String) : String := s.map Char.toLower

/-- Python substring containment `needle in hay`. -/
def substrB (needle hay : String) : Bool :=
  hay.toList.tails.any (fun t => needle.toList.isPrefixOf t)

/-- `self.company_to_symbol` (lines 36–82), in dict insertion order:
(key, (symbol, full name)). -/
def company_to_symbol : List (String × String × String) :=
  [("hdfc bank", "HDFCBANK", "HDFC Bank Ltd"),
   ("hdfc", "HDFCBANK", "HDFC Bank Ltd"),
   ("icici bank", "ICICIBANK", "ICICI Bank Ltd"),
   ("icici", "ICICIBANK", "ICICI Bank Ltd"),
   ("sbi", "SBIN", "State Bank of India"),
   ("state bank", "SBIN", "State Bank of India"),
   ("axis bank", "AXISBANK", "Axis Bank Ltd"),
   ("kotak mahindra", "KOTAKBANK", "Kotak Mahindra Bank"),
   ("kotak", "KOTAKBANK", "Kotak Mahindra Bank"),
   ("tcs", "TCS", "Tata Consultancy Services"),
   ("tata consultancy", "TCS", "Tata Consultancy Services"),
   ("infosys", "INFY", "Infosys Ltd"),
   ("wipro", "WIPRO", "Wipro Ltd"),
   ("tech mahindra", "TECHM", "Tech Mahindra Ltd"),
   ("hcl", "HCLTECH", "HCL Technologies"),
   ("hcl technologies", "HCLTECH", "HCL Technologies"),
   ("maruti", "MARUTI", "Maruti Suzuki India"),
   ("maruti suzuki", "MARUTI", "Maruti Suzuki India"),
   ("tata motors", "TATAMOTORS", "Tata Motors Ltd"),
   ("mahindra", "M&M", "Mahindra & Mahindra"),
   ("bajaj auto", "BAJAJ-AUTO", "Bajaj Auto Ltd"),
   ("bajaj finance", "BAJFINANCE", "Bajaj Finance Ltd"),
   ("hdfc life", "HDFCLIFE", "HDFC Life Insurance"),
   ("reliance", "RELIANCE", "Reliance Industries"),
   ("bharti airtel", "BHARTIARTL", "Bharti Airtel"),
   ("airtel", "BHARTIARTL", "Bharti Airtel"),
   ("itc", "ITC", "ITC Ltd"),
   ("hul", "HINDUNILVR", "Hindustan Unilever"),
   ("nestle", "NESTLEIND", "Nestle India"),
   ("britannia", "BRITANNIA", "Britannia Industries"),
   ("indigo", "INDIGO", "InterGlobe Aviation"),
   ("persistent systems", "PERSISTENT", "Persistent Systems"),
   ("tejas networks", "TEJASNET", "Tejas Networks"),
   ("patel engineering", "PATELENG", "Patel Engineering")]

/-- `self.sector_to_stocks` (lines 85–139): sector → (symbol, name,
base confidence) entries. -/
def sector_to_stocks : List (String × List (String × String × ℚ)) :=
  [("banking",
    [("HDFCBANK", "HDFC Bank", 3/4), ("ICICIBANK", "ICICI Bank", 3/4),
     ("SBIN", "State Bank of India", 3/4), ("AXISBANK", "Axis Bank", 7/10),
     ("KOTAKBANK", "Kotak Mahindra Bank", 7/10)]),
   ("financial services",
    [("HDFCBANK", "HDFC Bank", 7/10), ("BAJFINANCE", "Bajaj Finance", 3/4),
     ("HDFCLIFE", "HDFC Life", 7/10)]),
   ("it",
    [("TCS", "Tata Consultancy Services", 3/4), ("INFY", "Infosys", 3/4),
     ("WIPRO", "Wipro", 7/10), ("TECHM", "Tech Mahindra", 7/10),
     ("HCLTECH", "HCL Technologies", 7/10)]),
   ("information technology",
    [("TCS", "Tata Consultancy Services", 3/4), ("INFY", "Infosys", 3/4),
     ("WIPRO", "Wipro", 7/10)]),
   ("it services",
    [("TCS", "Tata Consultancy Services", 3/4), ("INFY", "Infosys", 3/4),
     ("WIPRO", "Wipro", 7/10)]),
   ("automobile",
    [("MARUTI", "Maruti Suzuki", 3/4), ("TATAMOTORS", "Tata Motors", 3/4),
     ("M&M", "Mahindra & Mahindra", 7/10)]),
   ("auto",
    [("MARUTI", "Maruti Suzuki", 3/4), ("TATAMOTORS", "Tata Motors", 3/4)]),
   ("nbfc", [("BAJFINANCE", "Bajaj Finance", 4/5)]),
   ("insurance", [("HDFCLIFE", "HDFC Life", 3/4)]),
   ("telecom",
    [("RELIANCE", "Reliance Industries", 7/10),
     ("BHARTIARTL", "Bharti Airtel", 3/4)]),
   ("fmcg",
    [("ITC", "ITC", 7/10), ("HINDUNILVR", "Hindustan Unilever", 7/10),
     ("BRITANNIA", "Britannia Industries", 13/20)])]

/-- `StockImpactAnalysisAgent.map_company_to_stock` (lines 145–186);
`company_lower` of the source is inlined as `lowerStr company_name`. -/
def map_company_to_stock (company_name : String) : StockImpact :=
  match company_to_symbol.find? (fun e => e.1 == lowerStr company_name) with
  | some e =>
    { symbol := e.2.1, company_name := e.2.2, confidence := 1,
      impact_type := .direct,
      reasoning := "Direct mention of " ++ company_name ++ " in article" }
  | none =>
    match company_to_symbol.find? (fun e =>
        substrB e.1 (lowerStr company_name) ||
        substrB (lowerStr company_name) e.1) with
    | some e =>
      { symbol := e.2.1, company_name := e.2.2, confidence := 19/20,
        impact_type := .direct,
        reasoning := "Partial match for " ++ company_name }
    | none =>
      { symbol := "UNKNOWN", company_name := company_name, confidence := 1/2,
        impact_type := .direct,
        reasoning := "Company " ++ company_name ++ " not in mapping database" }

/-- The entries of a sector key; `[]` when absent, like the
`if sector_lower in self.sector_to_stocks` guard. -/
def sectorEntries (s : String) : List (String × String × ℚ) :=
  ((sector_to_stocks.find? (fun e => e.1 == s)).map (fun e => e.2)).getD []

/-- `StockImpactAnalysisAgent.map_sector_to_stocks` (lines 188–212). -/
def map_sector_to_stocks (sector_name : String) : List StockImpact :=
  (sectorEntries (lowerStr sector_name)).map (fun t =>
    { symbol := t.1, company_name := t.2.1, confidence := t.2.2,
      impact_type := .sector_wide,
      reasoning := "Sector-wide " ++ sector_name ++ " news" })

/-- `StockImpactAnalysisAgent.map_regulator_to_stocks` (lines 214–263). -/
def map_regulator_to_stocks (regulator_name : String) : List StockImpact :=
  let rl := lowerStr regulator_name
  if substrB "rbi" rl || substrB "reserve bank" rl then
    (sectorEntries "banking").map (fun t =>
      { symbol := t.1, company_name := t.2.1, confidence := t.2.2 * (85/100),
        impact_type := .regulatory,
        reasoning := "RBI regulatory news affects banking sector" })
  else if substrB "sebi" rl then
    (sectorEntries "financial services").map (fun t =>
      { symbol := t.1, company_name := t.2.1, confidence := t.2.2 * (3/4),
        impact_type := .regulatory,
        reasoning := "SEBI regulatory news" })
  else if substrB "irdai" rl || substrB "insurance regulatory" rl then
    (sectorEntries "insurance").map (fun t =>
      { symbol := t.1, company_name := t.2.1, confidence := t.2.2 * (4/5),
        impact_type := .regulatory,
        reasoning := "IRDAI regulatory news affects insurance sector" })
  else []

/-- The per-entity dispatch of `StockImpactAnalysisAgent.process`
(lines 284–300). -/
def impactsOfEntity (e : Entity) : List StockImpact :=
  match e.entity_type with
  | .company => [map_company_to_stock e.name]
  | .sector => map_sector_to_stocks e.name
  | .regulator => map_regulator_to_stocks e.name
  | _ => []

/-- `StockImpactAnalysisAgent.process` (lines 265–325): skip when no
entities, otherwise collect per-entity impacts and merge by symbol. -/
def stockImpactProcess (article : NewsArticle) : NewsArticle :=
  if article.entities.isEmpty then article
  else
    { article with stock_impacts :=
        mergeImpacts (article.entities.flatMap impactsOfEntity) }

/-- C4: mapping a company entity name. Exact lower-cased table hit gives the
table's symbol at confidence exactly 1; otherwise a substring hit in either
direction gives confidence exactly 0.95 with a table symbol; otherwise the
UNKNOWN sentinel at confidence exactly 0.5. In all three cases the single
produced impact is `direct` — a company entity never yields zero impacts. -/
theorem C4_company_mapping (name : String) :
    (map_company_to_stock name).impact_type = .direct ∧
    ((∃ e ∈ company_to_symbol, e.1 = lowerStr name) →
      (map_company_to_stock name).confidence = 1 ∧
      ∀ e ∈ company_to_symbol, e.1 = lowerStr name →
        (map_company_to_stock name).symbol = e.2.1) ∧
    ((¬ ∃ e ∈ company_to_symbol, e.1 = lowerStr name) →
      (∃ e ∈ company_to_symbol,
        (substrB e.1 (lowerStr name) || substrB (lowerStr name) e.1) = true) →
      (map_company_to_stock name).confidence = 19/20 ∧
      ∃ e ∈ company_to_symbol, (map_company_to_stock name).symbol = e.2.1) ∧
    ((¬ ∃ e ∈ company_to_symbol, e.1 = lowerStr name) →
      (¬ ∃ e ∈ company_to_symbol,
        (substrB e.1 (lowerStr name) || substrB (lowerStr name) e.1) = true) →
      map_company_to_stock name =
        { symbol := "UNKNOWN", company_name := name, confidence := 1/2,
          impact_type := .direct,
          reasoning := "Company " ++ name ++ " not in mapping database" }) := by
  have hkeys : (company_to_symbol.map (fun e => e.1)).Nodup := by decide
  rcases hfind : company_to_symbol.find? (fun e => e.1 == lowerStr name) with _ | f
  · rcases hfind2 : company_to_symbol.find?
        (fun e => substrB e.1 (lowerStr name) || substrB (lowerStr name) e.1)
        with _ | f2
    · have hval : map_company_to_stock name =
          { symbol := "UNKNOWN", company_name := name, confidence := 1/2,
            impact_type := .direct,
            reasoning := "Company " ++ name ++ " not in mapping database" } := by
        unfold map_company_to_stock
        rw [hfind, hfind2]
      refine ⟨by rw [hval], ?_, ?_, ?_⟩
      · intro ⟨e, he, hke⟩
        have := List.find?_eq_none.mp hfind e he
        simp [hke] at this
      · intro _ ⟨e, he, hke⟩
        have := List.find?_eq_none.mp hfind2 e he
        simp [hke] at this
      · intro _ _
        exact hval
    · have hval : map_company_to_stock name =
          { symbol := f2.2.1, company_name := f2.2.2, confidence := 19/20,
            impact_type := .direct,
            reasoning := "Partial match for " ++ name } := by
        unfold map_company_to_stock
        rw [hfind, hfind2]
      refine ⟨by rw [hval], ?_, ?_, ?_⟩
      · intro ⟨e, he, hke⟩
        have := List.find?_eq_none.mp hfind e he
        simp [hke] at this
      · intro _ _
        exact ⟨by rw [hval], f2, List.mem_of_find?_eq_some hfind2, by rw [hval]⟩
      · intro _ hno
        exact absurd ⟨f2, List.mem_of_find?_eq_some hfind2,
          by simpa using List.find?_some hfind2⟩ hno
  · have hval : map_company_to_stock name =
        { symbol := f.2.1, company_name := f.2.2, confidence := 1,
          impact_type := .direct,
          reasoning := "Direct mention of " ++ name ++ " in article" } := by
      unfold map_company_to_stock
      rw [hfind]
    refine ⟨by rw [hval], ?_, ?_, ?_⟩
    · intro _
      refine ⟨by rw [hval], ?_⟩
      intro e he hke
      have hf : f ∈ company_to_symbol := List.mem_of_find?_eq_some hfind
      have hkf : f.1 = lowerStr name := by
        have := List.find?_some hfind
        simpa using this
      have hef : e = f :=
        List.inj_on_of_nodup_map hkeys he hf (by rw [hke, hkf])
      rw [hval, hef]
    · intro hno _
      exact absurd ⟨f, List.mem_of_find?_eq_some hfind,
        by simpa using List.find?_some hfind⟩ hno
    · intro hno _
      exact absurd ⟨f, List.mem_of_find?_eq_some hfind,
        by simpa using List.find?_some hfind⟩ hno

/-- Witness for C4: "HDFC Bank" hits the table exactly (confidence 1,
symbol HDFCBANK); "HDFC Bank Limited" hits only as a substring match
(confidence 0.95); "Zomato" misses entirely (UNKNOWN sentinel at 0.5). -/
theorem C4_company_mapping_witness :
    (map_company_to_stock "HDFC Bank").confidence = 1 ∧
    (map_company_to_stock "HDFC Bank Limited").confidence = 19/20 ∧
    map_company_to_stock "Zomato" =
      { symbol := "UNKNOWN", company_name := "Zomato", confidence := 1/2,
        impact_type := .direct,
        reasoning := "Company " ++ "Zomato" ++ " not in mapping database" } := by
  refine ⟨((C4_company_mapping "HDFC Bank").2.1 ?_).1,
          ((C4_company_mapping "HDFC Bank Limited").2.2.1 ?_ ?_).1,
          (C4_company_mapping "Zomato").2.2.2 ?_ ?_⟩
  · with_unfolding_all decide
  · with_unfolding_all decide
  · with_unfolding_all decide
  · with_unfolding_all decide
  · with_unfolding_all decide

def impX : StockImpact :=
  { symbol := "HDFCBANK", company_name := "HDFC Bank Ltd", confidence := 3/4,
    impact_type := .sector_wide, reasoning := "x" }

def impY : StockImpact :=
  { symbol := "HDFCBANK", company_name := "HDFC Bank Ltd", confidence := 3/4,
    impact_type := .regulatory, reasoning := "y" }

/-! ## Story Aggregator (src/agents/storage_agent.py) -/

/-- The duplicate-entity filter of `create_unique_story` (lines 93–100):
keep the first occurrence of each (lower-cased name, type) key. -/
def dedupEntities (l : List Entity) : List Entity :=
  (l.foldl (fun (acc : List Entity × List (String × EntityType)) e =>
    if (lowerStr e.name, e.entity_type) ∈ acc.2 then acc
    else (acc.1 ++ [e], acc.2 ++ [(lowerStr e.name, e.entity_type)])) ([], [])).1

/-- `StorageIndexingAgent.create_unique_story` (lines 74–125). -/
def create_unique_story (primary_article : NewsArticle)
    (duplicates : List NewsArticle) : UniqueStory :=
  { id := primary_article.id,
    primary_article := primary_article,
    duplicate_articles := duplicates,
    all_entities :=
      dedupEntities (primary_article.entities ++
        duplicates.flatMap (fun d => d.entities)),
    all_stock_impacts :=
      mergeImpacts (primary_article.stock_impacts ++
        duplicates.flatMap (fun d => d.stock_impacts)),
    confidence_score := 1 }

/-- C3: both where the Stock Impact Mapper merges an article's collected
impacts and where the Story Aggregator merges a story's impacts, the merge
produces exactly one impact per distinct symbol, in first-encounter order;
each produced impact is an input impact whose confidence is maximal among
the input impacts sharing its symbol, and it strictly beats every earlier
same-symbol input impact — so on exact confidence ties the first-encountered
impact is kept. -/
theorem C3_merge_by_symbol (l : List StockImpact) :
    (∀ article : NewsArticle, article.entities.isEmpty = false →
      (stockImpactProcess article).stock_impacts =
        mergeImpacts (article.entities.flatMap impactsOfEntity)) ∧
    (∀ (p : NewsArticle) (ds : List NewsArticle),
      (create_unique_story p ds).all_stock_impacts =
        mergeImpacts (p.stock_impacts ++
          ds.flatMap (fun d => d.stock_impacts))) ∧
    (mergeImpacts l).map (fun j => j.symbol) =
      firstOccs (l.map (fun j => j.symbol)) ∧
    ∀ j ∈ mergeImpacts l, ∃ l₁ l₂, l = l₁ ++ j :: l₂ ∧
      (∀ k ∈ l, k.symbol = j.symbol → k.confidence ≤ j.confidence) ∧
      (∀ k ∈ l₁, k.symbol = j.symbol → k.confidence < j.confidence) := by
  refine ⟨?_, fun p ds => rfl, (mergeImpacts_characterisation l).1,
    (mergeImpacts_characterisation l).2⟩
  intro article ha
  unfold stockImpactProcess
  rw [ha]
  rfl

/-- Witness for C3: in the two-impact tie `[impX, impY]` (same symbol, equal
confidence) the merge keeps the first-encountered `impX`, which decomposes
the input with no strictly-better earlier same-symbol impact. -/
theorem C3_merge_by_symbol_witness :
    ∃ l₁ l₂, [impX, impY] = l₁ ++ impX :: l₂ ∧
      (∀ k ∈ [impX, impY], k.symbol = impX.symbol →
        k.confidence ≤ impX.confidence) ∧
      (∀ k ∈ l₁, k.symbol = impX.symbol → k.confidence < impX.confidence) :=
  (C3_merge_by_symbol [impX, impY]).2.2.2 impX (by with_unfolding_all decide)

/-- The `for article in articles` loop of `StorageIndexingAgent.process`
(lines 139–162); `full` is the whole batch the inner duplicate scan runs
over, `pids` the `processed_ids` set. -/
def storageLoop (full : List NewsArticle) :
    List NewsArticle → List String → List UniqueStory
  | [], _ => []
  | a :: rest, pids =>
    if a.id ∈ pids then storageLoop full rest pids
    else if a.is_duplicate then storageLoop full rest (pids ++ [a.id])
    else
      let dups := full.filter (fun o => o.is_duplicate &&
        o.duplicate_of == some a.id)
      create_unique_story a dups ::
        storageLoop full rest (pids ++ dups.map (fun d => d.id) ++ [a.id])

/-- `StorageIndexingAgent.process` on one batch. -/
def storageProcess (batch : List NewsArticle) : List UniqueStory :=
  storageLoop batch batch []

/-- Structure of every story produced by the aggregation loop: its primary
is a non-duplicate member of the batch, and its duplicate list is exactly
the batch-wide filter on `duplicate_of == primary.id`. -/
theorem storageLoop_story_shape (full : List NewsArticle) :
    ∀ (remaining : List NewsArticle) (pids : List String),
      (∀ a ∈ remaining, a ∈ full) →
      ∀ story ∈ storageLoop full remaining pids,
        story.primary_article.is_duplicate = false ∧
        story.primary_article ∈ full ∧
        story.duplicate_articles = full.filter (fun o => o.is_duplicate &&
          o.duplicate_of == some story.primary_article.id) := by
  intro remaining
  induction remaining with
  | nil => intro pids _ story hstory; cases hstory
  | cons a rest ih =>
    intro pids hsub story hstory
    have hrest : ∀ x ∈ rest, x ∈ full :=
      fun x hx => hsub x (List.mem_cons_of_mem a hx)
    rw [storageLoop] at hstory
    by_cases hid : a.id ∈ pids
    · rw [if_pos hid] at hstory
      exact ih pids hrest story hstory
    · rw [if_neg hid] at hstory
      by_cases hdup : a.is_duplicate = true
      · rw [if_pos hdup] at hstory
        exact ih (pids ++ [a.id]) hrest story hstory
      · rw [if_neg hdup] at hstory
        simp only [if_neg hdup, Bool.not_eq_true] at hstory
        rcases List.mem_cons.mp hstory with rfl | hstory'
        · refine ⟨Bool.not_eq_true _ ▸ (by simpa using hdup), ?_, ?_⟩
          · exact hsub a (List.mem_cons_self a rest)
          · rfl
        · exact ih _ hrest story hstory'

/-- C9: a duplicate article whose `duplicate_of` matches no non-duplicate in
the same batch is silently dropped: aggregation still returns (it is total),
and the article is neither the primary of any produced story nor in any
produced story's duplicate list. -/
theorem C9_dangling_duplicate_dropped (batch : List NewsArticle)
    (d : NewsArticle) (hdup : d.is_duplicate = true)
    (hdangle : ∀ a ∈ batch, a.is_duplicate = false →
      some a.id ≠ d.duplicate_of) :
    ∀ story ∈ storageProcess batch,
      story.primary_article ≠ d ∧ d ∉ story.duplicate_articles := by
  intro story hstory
  rcases storageLoop_story_shape batch batch [] (fun a ha => ha) story hstory
    with ⟨hprim, hprimmem, hdups⟩
  constructor
  · intro hc
    rw [hc] at hprim
    rw [hprim] at hdup
    cases hdup
  · intro hc
    rw [hdups] at hc
    have := List.of_mem_filter hc
    have hdof : d.duplicate_of = some story.primary_article.id := by
      have hb := Bool.and_elim_right this
      exact eq_of_beq hb
    exact hdangle story.primary_article hprimmem hprim hdof.symm

def artU : NewsArticle :=
  { id := "u", title := "Unique story", content := "body u",
    is_duplicate := false, duplicate_of := none }

def artG : NewsArticle :=
  { id := "g", title := "Dangling duplicate", content := "body g",
    is_duplicate := true, duplicate_of := some "ghost" }

/-- Witness for C9: the batch `[artU, artG]` aggregates to the single story
around `artU`, and the dangling duplicate `artG` (its target "ghost" is not
in the batch) is absent from it. -/
theorem C9_dangling_duplicate_dropped_witness :
    (create_unique_story artU []).primary_article ≠ artG ∧
    artG ∉ (create_unique_story artU []).duplicate_articles :=
  C9_dangling_duplicate_dropped [artU, artG] artG rfl
    (by with_unfolding_all decide) (create_unique_story artU [])
    (by with_unfolding_all decide)

/-! ## Query Engine (src/agents/query_agent.py) -/

/-- `self.company_keywords` (lines 45–57), dict insertion order. -/
def company_keywords : List (String × String) :=
  [("hdfc", "HDFCBANK"), ("hdfc bank", "HDFCBANK"), ("icici", "ICICIBANK"),
   ("icici bank", "ICICIBANK"), ("sbi", "SBIN"), ("tcs", "TCS"),
   ("infosys", "INFY"), ("wipro", "WIPRO"), ("bajaj finance", "BAJFINANCE"),
   ("bajaj", "BAJFINANCE"), ("reliance", "RELIANCE")]

/-- `self.sector_keywords` (lines 59–67), dict insertion order. -/
def sector_keywords : List (String × String) :=
  [("banking", "banking"), ("bank", "banking"),
   ("it", "information technology"), ("tech", "technology"),
   ("auto", "automobile"), ("finance", "financial services"),
   ("nbfc", "nbfc")]

/-- The stop-list of `parse_query` (line 101). -/
def stopWords : List String := ["news", "update", "latest", "recent"]

/-- Python `str.split()`: whitespace-delimited words, no empties. -/
def pySplit (s : String) : List String :=
  (s.split Char.isWhitespace).filter (fun w => w ≠ "")

/-- `QueryProcessingAgent.parse_query` (lines 72–104): keyword maps scanned
by substring containment over the lower-cased query; free keywords are the
whitespace words of the whole lower-cased query longer than 3 characters and
outside the stop-list. -/
def parse_query (query : String) :
    List String × List String × List String :=
  let query_lower := lowerStr query
  ((company_keywords.filter (fun kv => substrB kv.1 query_lower)).map
      (fun kv => kv.2),
   (sector_keywords.filter (fun kv => substrB kv.1 query_lower)).map
      (fun kv => kv.2),
   (pySplit query_lower).filter
      (fun w => 3 < w.length && !stopWords.contains w))

/-- The additive relevance of one story (lines 130–161): per detected
symbol the first matching merged impact's confidence (loop with `break`);
per detected sector 0.7 when some entity name contains it (loop with
`break`), only when sector news is included; per keyword 0.5 on a title hit
else 0.3 on a body hit. -/
def storyRelevance (companies sectors keywords : List String)
    (include_sector_news : Bool) (story : UniqueStory) : ℚ :=
  let r1 := companies.foldl (fun r c =>
    match story.all_stock_impacts.find? (fun i => i.symbol == c) with
    | some i => r + 1 * i.confidence
    | none => r) 0
  let r2 := if include_sector_news then
      sectors.foldl (fun r s =>
        if story.all_entities.any (fun e => substrB s (lowerStr e.name))
        then r + 7/10 else r) r1
    else r1
  keywords.foldl (fun r k =>
    if substrB k (lowerStr story.primary_article.title) then r + 1/2
    else if substrB k (lowerStr story.primary_article.content) then r + 3/10
    else r) r2

/-- Stable descending insertion by relevance: the inserted element goes
after every element whose key is at least its own (Python `list.sort` with
`reverse=True` is stable; insertion sort after equals realises the same
extensional behaviour). -/
def insertDesc (x : UniqueStory × ℚ) :
    List (UniqueStory × ℚ) → List (UniqueStory × ℚ)
  | [] => [x]
  | y :: ys => if y.2 < x.2 then x :: y :: ys else y :: insertDesc x ys

def sortDesc (l : List (UniqueStory × ℚ)) : List (UniqueStory × ℚ) :=
  l.foldl (fun acc x => insertDesc x acc) []

/-- `QueryProcessingAgent.search_by_query` (lines 106–170). -/
def search_by_query (query : String) (limit : Nat)
    (include_sector_news : Bool) (min_relevance_score : ℚ)
    (stories : List UniqueStory) : List (UniqueStory × ℚ) :=
  let parsed := parse_query query
  let results := stories.filterMap (fun story =>
    if min_relevance_score ≤
        storyRelevance parsed.1 parsed.2.1 parsed.2.2 include_sector_news story
    then some (story,
      storyRelevance parsed.1 parsed.2.1 parsed.2.2 include_sector_news story)
    else none)
  (sortDesc results).take limit

/-- `QueryResult` exactly as declared in src/models/schemas.py lines 90–96:
`query`, `results`, `total_results`, `processing_time`, `explanation` —
the model declares no sector-expansion field. -/
structure QueryResult where
  query : String
  results : List UniqueStory
  total_results : Nat
  processing_time : ℚ
  explanation : Option String := none
deriving DecidableEq, Repr

/-- The pydantic constructor call `QueryResult(..., expansion_applied=...)`
of query_agent.py lines 218–224: pydantic's default configuration ignores
keyword arguments that are not declared fields, so the boolean is dropped
and the constructed model holds only the declared fields. -/
def mkQueryResultIgnoringExtra (query : String) (results : List UniqueStory)
    (total_results : Nat) (processing_time : ℚ)
    (expansion_applied : Bool) : QueryResult :=
  { query := query, results := results, total_results := total_results,
    processing_time := processing_time, explanation := none }

/-- `QueryProcessingAgent.process` (lines 172–226); the wall-clock duration
is an opaque input. -/
def queryProcess (query : String) (limit : Nat) (include_sector_news : Bool)
    (min_relevance_score : ℚ) (stories : List UniqueStory)
    (elapsed : ℚ) : QueryResult :=
  let results := search_by_query query limit include_sector_news
    min_relevance_score stories
  mkQueryResultIgnoringExtra query (results.map (fun x => x.1))
    results.length elapsed
    (include_sector_news && !(parse_query query).2.1.isEmpty)

/-! ### Decomposing the relevance accumulation into per-signal sums -/

/-- Claim-side contribution of one detected symbol: the matching merged
impact's confidence (times 1.0), or nothing. -/
def companyScore (story : UniqueStory) (c : String) : ℚ :=
  match story.all_stock_impacts.find? (fun i => i.symbol == c) with
  | some i => 1 * i.confidence
  | none => 0

/-- Claim-side contribution of one detected sector: 0.7 when the sector is
a substring of at least one entity name. -/
def sectorScore (story : UniqueStory) (s : String) : ℚ :=
  if story.all_entities.any (fun e => substrB s (lowerStr e.name))
  then 7/10 else 0

/-- Claim-side contribution of one keyword: 0.5 on a title hit, else 0.3 on
a body hit. -/
def keywordScore (story : UniqueStory) (k : String) : ℚ :=
  if substrB k (lowerStr story.primary_article.title) then 1/2
  else if substrB k (lowerStr story.primary_article.content) then 3/10
  else 0

theorem companyFold_eq (story : UniqueStory) :
    ∀ (cs : List String) (a : ℚ),
      cs.foldl (fun r c =>
        match story.all_stock_impacts.find? (fun i => i.symbol == c) with
        | some i => r + 1 * i.confidence
        | none => r) a = a + (cs.map (companyScore story)).sum := by
  intro cs
  induction cs with
  | nil => intro a; simp
  | cons c rest ih =>
    intro a
    rw [List.foldl_cons, List.map_cons, List.sum_cons]
    have hstep : (match story.all_stock_impacts.find? (fun i => i.symbol == c) with
        | some i => a + 1 * i.confidence
        | none => a) = a + companyScore story c := by
      unfold companyScore
      cases hf : story.all_stock_impacts.find? (fun i => i.symbol == c) with
      | none => simp
      | some i => simp
    rw [hstep, ih, add_assoc]

theorem sectorFold_eq (story : UniqueStory) :
    ∀ (ss : List String) (a : ℚ),
      ss.foldl (fun r s =>
        if story.all_entities.any (fun e => substrB s (lowerStr e.name))
        then r + 7/10 else r) a = a + (ss.map (sectorScore story)).sum := by
  intro ss
  induction ss with
  | nil => intro a; simp
  | cons s rest ih =>
    intro a
    rw [List.foldl_cons, List.map_cons, List.sum_cons]
    have hstep : (if story.all_entities.any (fun e => substrB s (lowerStr e.name))
        then a + 7/10 else a) = a + sectorScore story s := by
      unfold sectorScore
      by_cases hc : story.all_entities.any (fun e => substrB s (lowerStr e.name)) = true
      · rw [if_pos hc, if_pos hc]
      · rw [if_neg hc, if_neg hc, add_zero]
    rw [hstep, ih, add_assoc]

theorem keywordFold_eq (story : UniqueStory) :
    ∀ (ks : List String) (a : ℚ),
      ks.foldl (fun r k =>
        if substrB k (lowerStr story.primary_article.title) then r + 1/2
        else if substrB k (lowerStr story.primary_article.content) then r + 3/10
        else r) a = a + (ks.map (keywordScore story)).sum := by
  intro ks
  induction ks with
  | nil => intro a; simp
  | cons k rest ih =>
    intro a
    rw [List.foldl_cons, List.map_cons, List.sum_cons]
    have hstep : (if substrB k (lowerStr story.primary_article.title) then a + 1/2
        else if substrB k (lowerStr story.primary_article.content) then a + 3/10
        else a) = a + keywordScore story k := by
      unfold keywordScore
      by_cases h1 : substrB k (lowerStr story.primary_article.title) = true
      · rw [if_pos h1, if_pos h1]
      · rw [if_neg h1, if_neg h1]
        by_cases h2 : substrB k (lowerStr story.primary_article.content) = true
        · rw [if_pos h2, if_pos h2]
        · rw [if_neg h2, if_neg h2, add_zero]
    rw [hstep, ih, add_assoc]

theorem storyRelevance_eq_sum (cs ss ks : List String) (incl : Bool)
    (story : UniqueStory) :
    storyRelevance cs ss ks incl story =
      (cs.map (companyScore story)).sum +
      (if incl then (ss.map (sectorScore story)).sum else 0) +
      (ks.map (keywordScore story)).sum := by
  unfold storyRelevance
  rw [keywordFold_eq]
  congr 1
  cases incl with
  | false =>
    rw [if_neg (by simp), if_neg (by simp), companyFold_eq, zero_add, add_zero]
  | true =>
    rw [if_pos rfl, if_pos rfl, sectorFold_eq, companyFold_eq, zero_add]

/-! ### The stable descending sort -/

theorem mem_insertDesc (x z : UniqueStory × ℚ) :
    ∀ l, z ∈ insertDesc x l ↔ z = x ∨ z ∈ l := by
  intro l
  induction l with
  | nil => simp [insertDesc]
  | cons y ys ih =>
    unfold insertDesc
    by_cases hlt : y.2 < x.2
    · rw [if_pos hlt]
      simp
    · rw [if_neg hlt]
      simp only [List.mem_cons, ih]
      tauto

theorem insertDesc_perm (x : UniqueStory × ℚ) :
    ∀ l, (insertDesc x l).Perm (x :: l) := by
  intro l
  induction l with
  | nil => exact List.Perm.refl _
  | cons y ys ih =>
    unfold insertDesc
    by_cases hlt : y.2 < x.2
    · rw [if_pos hlt]
    · rw [if_neg hlt]
      exact List.Perm.trans (List.Perm.cons y ih) (List.Perm.swap x y ys)

theorem insertDesc_sorted (x : UniqueStory × ℚ) :
    ∀ l, l.Sorted (fun a b => b.2 ≤ a.2) →
      (insertDesc x l).Sorted (fun a b => b.2 ≤ a.2) := by
  intro l
  induction l with
  | nil => intro _; simp [insertDesc]
  | cons y ys ih =>
    intro h
    rcases List.sorted_cons.mp h with ⟨hy, hys⟩
    unfold insertDesc
    by_cases hlt : y.2 < x.2
    · rw [if_pos hlt]
      refine List.sorted_cons.mpr ⟨?_, h⟩
      intro b hb
      rcases List.mem_cons.mp hb with rfl | hb'
      · exact le_of_lt hlt
      · exact le_trans (hy b hb') (le_of_lt hlt)
    · rw [if_neg hlt]
      refine List.sorted_cons.mpr ⟨?_, ih hys⟩
      intro b hb
      rcases (mem_insertDesc x b ys).mp hb with rfl | hb'
      · exact not_lt.mp hlt
      · exact hy b hb'

theorem sortDesc_aux_perm :
    ∀ (l acc : List (UniqueStory × ℚ)),
      (l.foldl (fun acc x => insertDesc x acc) acc).Perm (acc ++ l) := by
  intro l
  induction l with
  | nil => intro acc; simp
  | cons x rest ih =>
    intro acc
    rw [List.foldl_cons]
    exact ((ih (insertDesc x acc)).trans
      ((insertDesc_perm x acc).append_right rest)).trans List.perm_middle.symm

theorem sortDesc_perm (l : List (UniqueStory × ℚ)) : (sortDesc l).Perm l := by
  have := sortDesc_aux_perm l []
  simpa [sortDesc] using this

theorem sortDesc_aux_sorted :
    ∀ (l acc : List (UniqueStory × ℚ)),
      acc.Sorted (fun a b => b.2 ≤ a.2) →
      (l.foldl (fun acc x => insertDesc x acc) acc).Sorted
        (fun a b => b.2 ≤ a.2) := by
  intro l
  induction l with
  | nil => intro acc h; exact h
  | cons x rest ih =>
    intro acc h
    rw [List.foldl_cons]
    exact ih (insertDesc x acc) (insertDesc_sorted x acc h)

theorem sortDesc_sorted (l : List (UniqueStory × ℚ)) :
    (sortDesc l).Sorted (fun a b => b.2 ≤ a.2) :=
  sortDesc_aux_sorted l [] (List.sorted_nil)

theorem insertDesc_filter_ne (x : UniqueStory × ℚ) (c : ℚ) (hx : x.2 ≠ c) :
    ∀ l, (insertDesc x l).filter (fun z => z.2 == c) =
      l.filter (fun z => z.2 == c) := by
  have hxc : (x.2 == c) = false := beq_eq_false_iff_ne.mpr hx
  intro l
  induction l with
  | nil => simp [insertDesc, hxc]
  | cons y ys ih =>
    unfold insertDesc
    by_cases hlt : y.2 < x.2
    · rw [if_pos hlt]
      rw [List.filter_cons, hxc]
      simp
    · rw [if_neg hlt]
      rw [List.filter_cons, List.filter_cons, ih]

theorem insertDesc_filter_eq (x : UniqueStory × ℚ) (c : ℚ) (hx : x.2 = c) :
    ∀ l, l.Sorted (fun a b => b.2 ≤ a.2) →
      (insertDesc x l).filter (fun z => z.2 == c) =
        l.filter (fun z => z.2 == c) ++ [x] := by
  have hxc : (x.2 == c) = true := beq_iff_eq.mpr hx
  intro l
  induction l with
  | nil => simp [insertDesc, hxc]
  | cons y ys ih =>
    intro h
    rcases List.sorted_cons.mp h with ⟨hy, hys⟩
    unfold insertDesc
    by_cases hlt : y.2 < x.2
    · rw [if_pos hlt]
      -- every key in y :: ys is below c, so the old filter is empty
      have hempty : (y :: ys).filter (fun z => z.2 == c) = [] := by
        rw [List.filter_eq_nil_iff]
        intro z hz
        have hzy : z.2 ≤ y.2 := by
          rcases List.mem_cons.mp hz with rfl | hz'
          · exact le_refl _
          · exact hy z hz'
        have : z.2 < c := lt_of_le_of_lt hzy (hx ▸ hlt)
        simp [beq_eq_false_iff_ne.mpr (ne_of_lt this)]
      rw [List.filter_cons, hxc, hempty]
      simp
    · rw [if_neg hlt]
      rw [List.filter_cons, List.filter_cons, ih hys]
      by_cases hyc : (y.2 == c) = true
      · rw [hyc]
        simp
      · rw [eq_false_of_ne_true hyc]
        simp

theorem sortDesc_aux_filter (c : ℚ) :
    ∀ (l acc : List (UniqueStory × ℚ)),
      acc.Sorted (fun a b => b.2 ≤ a.2) →
      (l.foldl (fun acc x => insertDesc x acc) acc).filter (fun z => z.2 == c) =
        acc.filter (fun z => z.2 == c) ++ l.filter (fun z => z.2 == c) := by
  intro l
  induction l with
  | nil => intro acc _; simp
  | cons x rest ih =>
    intro acc h
    rw [List.foldl_cons, ih (insertDesc x acc) (insertDesc_sorted x acc h),
      List.filter_cons]
    by_cases hxc : x.2 = c
    · rw [insertDesc_filter_eq x c hxc acc h, beq_iff_eq.mpr hxc]
      simp
    · rw [insertDesc_filter_ne x c hxc acc, beq_eq_false_iff_ne.mpr hxc]
      simp

/-- Stability of the sort: elements of any given relevance value appear in
exactly their input order. -/
theorem sortDesc_stable (l : List (UniqueStory × ℚ)) (c : ℚ) :
    (sortDesc l).filter (fun z => z.2 == c) = l.filter (fun z => z.2 == c) := by
  have := sortDesc_aux_filter c l [] (List.sorted_nil)
  simpa [sortDesc] using this

theorem filterMap_scored_eq (cs ss ks : List String) (incl : Bool)
    (minRel : ℚ) :
    ∀ stories : List UniqueStory,
      stories.filterMap (fun story =>
        if minRel ≤ storyRelevance cs ss ks incl story
        then some (story, storyRelevance cs ss ks incl story) else none) =
      (stories.filter (fun st =>
        decide (minRel ≤ storyRelevance cs ss ks incl st))).map
        (fun st => (st, storyRelevance cs ss ks incl st)) := by
  intro stories
  induction stories with
  | nil => rfl
  | cons st rest ih =>
    by_cases hc : minRel ≤ storyRelevance cs ss ks incl st
    · simp [List.filterMap_cons, List.filter_cons, hc, ih]
    · simp [List.filterMap_cons, List.filter_cons, hc, ih]

/-- C5: relevance is the additive sum of the three signals — per parsed
symbol occurrence the matching merged impact's confidence (so a symbol
parsed twice contributes twice), 0.7 per detected sector matching some
entity name (only under sector expansion, at most once per sector), and per
keyword 0.5 on a title hit else 0.3 on a body hit; and the returned list is
exactly the stories whose relevance reaches `minRelevance`, sorted by
descending relevance, stably (ties keep input order), truncated to
`limit`. -/
theorem C5_search_scoring_and_ranking (query : String) (limit : Nat)
    (incl : Bool) (minRel : ℚ) (stories : List UniqueStory)
    (cs ss ks : List String) (hparse : parse_query query = (cs, ss, ks))
    (scored : List (UniqueStory × ℚ))
    (hscored : scored = (stories.filter (fun st =>
        decide (minRel ≤ storyRelevance cs ss ks incl st))).map
      (fun st => (st, storyRelevance cs ss ks incl st))) :
    (∀ story, storyRelevance cs ss ks incl story =
      (cs.map (companyScore story)).sum +
      (if incl then (ss.map (sectorScore story)).sum else 0) +
      (ks.map (keywordScore story)).sum) ∧
    search_by_query query limit incl minRel stories =
      (sortDesc scored).take limit ∧
    (sortDesc scored).Sorted (fun a b => b.2 ≤ a.2) ∧
    (sortDesc scored).Perm scored ∧
    (∀ c : ℚ, (sortDesc scored).filter (fun z => z.2 == c) =
      scored.filter (fun z => z.2 == c)) := by
  refine ⟨fun story => storyRelevance_eq_sum cs ss ks incl story,
    ?_, sortDesc_sorted _, sortDesc_perm _, fun c => sortDesc_stable _ c⟩
  unfold search_by_query
  rw [hparse]
  dsimp only
  rw [hscored, filterMap_scored_eq]

def entBF : Entity := { name := "Bajaj Finance", entity_type := .company }

def impBF : StockImpact :=
  { symbol := "BAJFINANCE", company_name := "Bajaj Finance Ltd",
    confidence := 1, impact_type := .direct, reasoning := "" }

def artBF : NewsArticle :=
  { id := "bf", title := "Bajaj Finance profit", content := "strong quarter",
    entities := [entBF], stock_impacts := [impBF] }

def storyBF : UniqueStory :=
  { id := "bf", primary_article := artBF, all_entities := [entBF],
    all_stock_impacts := [impBF] }

/-- Witness for C5: the query "bajaj finance" parses to the symbol
BAJFINANCE twice (overlapping phrases), sector "financial services" and two
keywords; against a story holding BAJFINANCE at confidence 1 the relevance
is 1 + 1 + 0.5 + 0.5 = 3 and the story is returned. -/
theorem C5_search_scoring_and_ranking_witness :
    search_by_query "bajaj finance" 10 true (1/2) [storyBF] =
      [(storyBF, 3)] := by
  have h := C5_search_scoring_and_ranking "bajaj finance" 10 true (1/2)
    [storyBF] ["BAJFINANCE", "BAJFINANCE"] ["financial services"]
    ["bajaj", "finance"] (by with_unfolding_all decide) _ rfl
  rw [h.2.1]
  with_unfolding_all decide

/-- C6 (amended): the free-keyword list consists of the whitespace words of
the WHOLE lower-cased query that are longer than 3 characters and outside
the stop-list {news, update, latest, recent}; words consumed by a matched
company or sector phrase are NOT removed and can also appear as free
keywords. -/
theorem C6_keywords_characterisation (query w : String) :
    w ∈ (parse_query query).2.2 ↔
      (w ∈ pySplit (lowerStr query) ∧ 3 < w.length ∧ w ∉ stopWords) := by
  unfold parse_query
  simp [List.mem_filter, and_assoc]

/-- Counterexample to C6 as stated: in the query "infosys" the word
"infosys" is consumed as a company phrase (the parsed company list is
`["INFY"]`), yet it also appears among the free keywords. -/
theorem C6_counterexample :
    (parse_query "infosys").1 = ["INFY"] ∧
    "infosys" ∈ (parse_query "infosys").2.2 := by
  constructor
  · with_unfolding_all decide
  · with_unfolding_all decide

/-- C7 (code bug evidence): the QueryResult model of schemas.py declares no
sector-expansion field, so the `expansion_applied=...` keyword passed by
`QueryProcessingAgent.process` is silently ignored by pydantic — the
returned result is identical whatever boolean is computed, even on a query
("banking update") where sector expansion applies. -/
theorem C7_expansion_indicator_dropped :
    (∀ (query : String) (limit : Nat) (incl : Bool) (minRel : ℚ)
        (stories : List UniqueStory) (elapsed : ℚ) (b : Bool),
      queryProcess query limit incl minRel stories elapsed =
        mkQueryResultIgnoringExtra query
          ((search_by_query query limit incl minRel stories).map
            (fun x => x.1))
          (search_by_query query limit incl minRel stories).length
          elapsed b) ∧
    (true && !(parse_query "banking update").2.1.isEmpty) = true := by
  constructor
  · intro query limit incl minRel stories elapsed b
    rfl
  · with_unfolding_all decide

theorem filterMap_all_zero (cs ss ks : List String) (incl : Bool) :
    ∀ stories : List UniqueStory,
      (∀ st ∈ stories, storyRelevance cs ss ks incl st = 0) →
      stories.filterMap (fun story =>
        if (0:ℚ) ≤ storyRelevance cs ss ks incl story
        then some (story, storyRelevance cs ss ks incl story) else none) =
      stories.map (fun st => (st, (0:ℚ))) := by
  intro stories
  induction stories with
  | nil => intro _; rfl
  | cons st rest ih =>
    intro h
    have hst : storyRelevance cs ss ks incl st = 0 :=
      h st (List.mem_cons_self st rest)
    rw [List.filterMap_cons, List.map_cons, hst,
      ih (fun x hx => h x (List.mem_cons_of_mem st hx))]
    simp

theorem sortDesc_all_eq (l : List (UniqueStory × ℚ)) (c : ℚ)
    (h : ∀ z ∈ l, z.2 = c) : sortDesc l = l := by
  have h1 : l.filter (fun z => z.2 == c) = l :=
    List.filter_eq_self.mpr (fun z hz => beq_iff_eq.mpr (h z hz))
  have h2 : (sortDesc l).filter (fun z => z.2 == c) = sortDesc l :=
    List.filter_eq_self.mpr (fun z hz =>
      beq_iff_eq.mpr (h z ((sortDesc_perm l).mem_iff.mp hz)))
  rw [← h2, sortDesc_stable, h1]

/-- C10: with `min_relevance_score = 0` every story passes the relevance
filter even when nothing in the query matches (relevance 0 ≥ 0), so the
engine returns the first `limit` stories in storage order rather than zero
matches. -/
theorem C10_zero_min_relevance_returns_all (query : String) (limit : Nat)
    (incl : Bool) (stories : List UniqueStory)
    (h : ∀ st ∈ stories, storyRelevance (parse_query query).1
      (parse_query query).2.1 (parse_query query).2.2 incl st = 0) :
    search_by_query query limit incl 0 stories =
      (stories.map (fun st => (st, (0:ℚ)))).take limit := by
  unfold search_by_query
  dsimp only
  rw [filterMap_all_zero _ _ _ _ stories h,
    sortDesc_all_eq _ 0 (by intro z hz; rcases List.mem_map.mp hz with ⟨st, _, rfl⟩; rfl)]

def storyS : UniqueStory := { id := "s", primary_article := artU }

def storyT : UniqueStory := { id := "t", primary_article := artG }

/-- Witness for C10: the empty query matches nothing, yet with
`min_relevance_score = 0` and `limit = 1` the first stored story is
returned with relevance 0. -/
theorem C10_zero_min_relevance_returns_all_witness :
    search_by_query "" 1 true 0 [storyS, storyT] = [(storyS, 0)] := by
  rw [C10_zero_min_relevance_returns_all "" 1 true [storyS, storyT]
    (by with_unfolding_all decide)]
  with_unfolding_all decide

end StockNews
